import Mathlib

/-!
Verification of the dataset-analyzer core (src/analyzer/dataset_analyzer.py,
src/analyzer/constants.py) against its specification.

The numeric model is exact rational arithmetic (ℚ) in place of Python floats.
Python exceptions are modelled with Except: a Python float division a / b
raises ZeroDivisionError when b == 0, so division sites that can see a zero
denominator go through pyDiv.  The combination search
(DatasetAnalyzer._find_best_combination) is a fold over the Cartesian-product
triple list in itertools.product order; the statistics
(DatasetAnalyzer._calculate_statistical_metrics) follow the Python statistics
module (mean, median, sample stdev/variance with its sum-of-squares
correction term) and numpy's linear-interpolation percentile.
-/

/-- Python exceptions that the modelled code can raise:
ZeroDivisionError from float division, statistics.StatisticsError from the
statistics module (raised when fewer data points are given than a statistic
needs), ValueError from min/max on an empty sequence. -/
inductive PyExn
  | zeroDivisionError
  | statisticsError
  | valueError
deriving DecidableEq

/-- Python float division: a / b raises ZeroDivisionError when b == 0. -/
def pyDiv (a b : ℚ) : Except PyExn ℚ :=
  if b = 0 then .error .zeroDivisionError else .ok (a / b)

/-- The running best of the search loop in _find_best_combination:
best_result, best_error and best_combination.  The Python initial state
(best_result = None, best_error = inf, best_combination = None) is modelled
as the absence of a Best value (none): every freshly computed finite error
compares strictly below float inf, so the first scored triple always
replaces the initial state, exactly as the none case does here. -/
structure Best where
  best_result : ℚ
  best_error : ℚ
  best_combination : ℚ × ℚ × ℚ
deriving DecidableEq

/-- itertools.product(numbers, repeat=3): all ordered triples, first
coordinate varying slowest (outermost), third varying fastest (innermost). -/
def tripleProduct (numbers : List ℚ) : List (ℚ × ℚ × ℚ) :=
  numbers.flatMap fun n1 =>
    numbers.flatMap fun n2 =>
      numbers.map fun n3 => (n1, n2, n3)

/-- One iteration of the loop in _find_best_combination: skip the triple
when n3 == 0 (continue), otherwise result = (n1 * n2) / n3,
error = abs(result - target) / target * 100 (this division raises when
target == 0), and replace the running best iff error < best_error. -/
def loopStep (target : ℚ) (acc : Option Best) (t : ℚ × ℚ × ℚ) :
    Except PyExn (Option Best) :=
  if t.2.2 = 0 then .ok acc
  else
    match pyDiv (t.1 * t.2.1) t.2.2 with
    | .error exn => .error exn
    | .ok result =>
      match pyDiv |result - target| target with
      | .error exn => .error exn
      | .ok e0 =>
        let e := e0 * 100
        match acc with
        | none => .ok (some ⟨result, e, t⟩)
        | some b => if e < b.best_error then .ok (some ⟨result, e, t⟩) else .ok acc

/-- The for-loop of _find_best_combination: fold loopStep over the triples,
propagating a raised exception. -/
def searchLoop (target : ℚ) (acc : Option Best) :
    List (ℚ × ℚ × ℚ) → Except PyExn (Option Best)
  | [] => .ok acc
  | t :: rest =>
    match loopStep target acc t with
    | .error exn => .error exn
    | .ok acc2 => searchLoop target acc2 rest

/-- DatasetAnalyzer._find_best_combination (dataset_analyzer.py lines
253-268): exhaustive search over itertools.product(numbers, repeat=3)
starting from the empty running best.  An ok none outcome models the Python
return value (None, inf, None). -/
def _find_best_combination (numbers : List ℚ) (target : ℚ) :
    Except PyExn (Option Best) :=
  searchLoop target none (tripleProduct numbers)

/-- The percentage error the loop body assigns to a triple (meaningful when
the triple's n3 and the target are nonzero). -/
def score (target : ℚ) (t : ℚ × ℚ × ℚ) : ℚ :=
  |t.1 * t.2.1 / t.2.2 - target| / target * 100

/-- The Best record the loop body builds for a scored triple. -/
def canon (target : ℚ) (t : ℚ × ℚ × ℚ) : Best :=
  ⟨t.1 * t.2.1 / t.2.2, score target t, t⟩

/-- Pure form of loopStep, valid when target is nonzero (no exception can
then be raised). -/
def stepP (target : ℚ) (acc : Option Best) (t : ℚ × ℚ × ℚ) : Option Best :=
  if t.2.2 = 0 then acc
  else
    match acc with
    | none => some (canon target t)
    | some b => if score target t < b.best_error then some (canon target t) else acc

theorem loopStep_ok (target : ℚ) (ht : target ≠ 0) (acc : Option Best)
    (t : ℚ × ℚ × ℚ) : loopStep target acc t = .ok (stepP target acc t) := by
  unfold loopStep stepP
  by_cases h3 : t.2.2 = 0
  · simp [h3]
  · simp only [h3, if_false, pyDiv, ht, if_neg, reduceIte]
    cases acc with
    | none => simp [canon, score, div_mul_eq_mul_div, abs_div]
    | some b =>
      simp only [canon, score]
      by_cases hlt : |t.1 * t.2.1 / t.2.2 - target| / target * 100 < b.best_error <;>
        simp [hlt]

theorem searchLoop_ok (target : ℚ) (ht : target ≠ 0) (acc : Option Best)
    (L : List (ℚ × ℚ × ℚ)) :
    searchLoop target acc L = .ok (L.foldl (stepP target) acc) := by
  induction L generalizing acc with
  | nil => rfl
  | cons t rest ih => rw [searchLoop, loopStep_ok target ht, List.foldl_cons]; exact ih _

theorem mem_tripleProduct {numbers : List ℚ} {t : ℚ × ℚ × ℚ} :
    t ∈ tripleProduct numbers ↔
      t.1 ∈ numbers ∧ t.2.1 ∈ numbers ∧ t.2.2 ∈ numbers := by
  obtain ⟨n1, n2, n3⟩ := t
  constructor
  · intro h
    simp only [tripleProduct, List.mem_flatMap, List.mem_map] at h
    obtain ⟨a, ha, b, hb, c, hc, heq⟩ := h
    cases heq
    exact ⟨ha, hb, hc⟩
  · rintro ⟨h1, h2, h3⟩
    simp only [tripleProduct, List.mem_flatMap, List.mem_map]
    exact ⟨n1, h1, n2, h2, n3, h3, rfl⟩

theorem canon_best_error (target : ℚ) (t : ℚ × ℚ × ℚ) :
    (canon target t).best_error = score target t := rfl

theorem canon_best_combination (target : ℚ) (t : ℚ × ℚ × ℚ) :
    (canon target t).best_combination = t := rfl

/-- Full characterization of the pure search fold: either every triple in
the list had a zero third component and the running best is still empty, or
the result is the canonical record of the first triple attaining the
minimal score: it scores no worse than every valid triple, and strictly
better than every valid triple occurring before it. -/
theorem foldP_char (target : ℚ) (L : List (ℚ × ℚ × ℚ)) :
    (L.foldl (stepP target) none = none ∧ ∀ t ∈ L, t.2.2 = 0) ∨
    (∃ i, ∃ hi : i < L.length,
      L.foldl (stepP target) none = some (canon target L[i]) ∧
      L[i].2.2 ≠ 0 ∧
      (∀ j, ∀ hj : j < L.length, L[j].2.2 ≠ 0 →
        score target L[i] ≤ score target L[j]) ∧
      (∀ j, ∀ hj : j < L.length, j < i → L[j].2.2 ≠ 0 →
        score target L[i] < score target L[j])) := by
  induction L using List.reverseRecOn with
  | nil => left; simp
  | append_singleton L t ih =>
    rw [List.foldl_append, List.foldl_cons, List.foldl_nil]
    have hlen : L.length < (L ++ [t]).length := by simp
    have hconcat : (L ++ [t])[L.length] = t :=
      List.getElem_concat_length L t L.length rfl hlen
    rcases ih with ⟨hnone, hall⟩ | ⟨i, hi, heq, hvalid, hle, hstrict⟩
    · rw [hnone]
      by_cases h3 : t.2.2 = 0
      · left
        refine ⟨by simp [stepP, h3], ?_⟩
        intro u hu
        rcases List.mem_append.mp hu with h | h
        · exact hall u h
        · rw [List.mem_singleton.mp h]; exact h3
      · right
        refine ⟨L.length, hlen, ?_, ?_, ?_, ?_⟩
        · rw [hconcat]; simp [stepP, h3]
        · rw [hconcat]; exact h3
        · intro j hj hvj
          rcases Nat.lt_succ_iff_lt_or_eq.mp (by simpa using hj) with hj' | hj'
          · exfalso
            rw [List.getElem_append_left hj'] at hvj
            exact hvj (hall _ (List.getElem_mem hj'))
          · subst hj'
            rw [hconcat]
        · intro j hj hji hvj
          have hj' : j < L.length := Nat.lt_of_lt_of_le hji (Nat.le_refl _)
          exfalso
          rw [List.getElem_append_left hj'] at hvj
          exact hvj (hall _ (List.getElem_mem hj'))
    · rw [heq]
      have hi' : i < (L ++ [t]).length := by simp; omega
      have hgeti : (L ++ [t])[i] = L[i] := List.getElem_append_left hi
      by_cases h3 : t.2.2 = 0
      · right
        refine ⟨i, hi', ?_, ?_, ?_, ?_⟩
        · rw [hgeti]; simp [stepP, h3]
        · rw [hgeti]; exact hvalid
        · intro j hj hvj
          rcases Nat.lt_succ_iff_lt_or_eq.mp (by simpa using hj) with hj' | hj'
          · rw [List.getElem_append_left hj'] at hvj ⊢
            rw [hgeti]
            exact hle j hj' hvj
          · subst hj'
            rw [hconcat] at hvj
            exact absurd h3 hvj
        · intro j hj hji hvj
          have hj' : j < L.length := Nat.lt_trans hji hi
          rw [List.getElem_append_left hj'] at hvj ⊢
          rw [hgeti]
          exact hstrict j hj' hji hvj
      · by_cases hlt : score target t < score target L[i]
        · right
          refine ⟨L.length, hlen, ?_, ?_, ?_, ?_⟩
          · rw [hconcat]; simp [stepP, h3, canon_best_error, hlt]
          · rw [hconcat]; exact h3
          · intro j hj hvj
            rcases Nat.lt_succ_iff_lt_or_eq.mp (by simpa using hj) with hj' | hj'
            · rw [List.getElem_append_left hj'] at hvj ⊢
              rw [hconcat]
              exact le_of_lt (lt_of_lt_of_le hlt (hle j hj' hvj))
            · subst hj'
              rw [hconcat]
          · intro j hj hji hvj
            have hj' : j < L.length := hji
            rw [List.getElem_append_left hj'] at hvj ⊢
            rw [hconcat]
            exact lt_of_lt_of_le hlt (hle j hj' hvj)
        · right
          refine ⟨i, hi', ?_, ?_, ?_, ?_⟩
          · rw [hgeti]; simp [stepP, h3, canon_best_error, hlt]
          · rw [hgeti]; exact hvalid
          · intro j hj hvj
            rcases Nat.lt_succ_iff_lt_or_eq.mp (by simpa using hj) with hj' | hj'
            · rw [List.getElem_append_left hj'] at hvj ⊢
              rw [hgeti]
              exact hle j hj' hvj
            · subst hj'
              rw [hconcat] at hvj ⊢
              rw [hgeti]
              exact le_of_not_lt hlt
          · intro j hj hji hvj
            have hj' : j < L.length := Nat.lt_trans hji hi
            rw [List.getElem_append_left hj'] at hvj ⊢
            rw [hgeti]
            exact hstrict j hj' hji hvj

/-- With target == 0 the search either raises ZeroDivisionError at the
first scored triple (the error formula divides by target) or, when every
triple is skipped, silently returns the empty best. -/
theorem searchLoop_zero_target (L : List (ℚ × ℚ × ℚ)) :
    searchLoop 0 none L = .ok none ∨
    searchLoop 0 none L = .error .zeroDivisionError := by
  induction L with
  | nil => left; rfl
  | cons t rest ih =>
    by_cases h3 : t.2.2 = 0
    · have hstep : loopStep 0 none t = .ok none := by simp [loopStep, h3]
      rw [searchLoop, hstep]
      exact ih
    · have hstep : loopStep 0 none t = .error .zeroDivisionError := by
        simp [loopStep, h3, pyDiv]
      rw [searchLoop, hstep]
      right; rfl

/-- C1 counterexample: with the nonzero target -1 and pool [1] the only
triple is (1, 1, 1) and the returned error is -200, strictly negative, so
the error >= 0 part of the claim fails for nonzero (negative) targets. -/
theorem C1_counterexample :
    _find_best_combination [1] (-1) = .ok (some ⟨1, -200, (1, 1, 1)⟩) ∧
    ((-200 : ℚ) < 0) := by
  constructor
  · norm_num [_find_best_combination, tripleProduct, searchLoop, loopStep, pyDiv,
      abs_of_nonneg]
  · norm_num

/-- C1 (amended): for every non-empty pool and nonzero target the search
returns without exception; whenever it returns a best record, its error is
a lower bound on the percentage error of every ordered triple drawn from
the pool with nonzero third component; the returned error is nonnegative
whenever the target is positive; and some best record is returned as soon
as the pool holds any nonzero element. -/
theorem C1_minimality (numbers : List ℚ) (target : ℚ)
    (hne : numbers ≠ []) (ht : target ≠ 0) :
    ∃ res, _find_best_combination numbers target = .ok res ∧
      (∀ b, res = some b → ∀ n1 ∈ numbers, ∀ n2 ∈ numbers, ∀ n3 ∈ numbers,
        n3 ≠ 0 → b.best_error ≤ |n1 * n2 / n3 - target| / target * 100) ∧
      (0 < target → ∀ b, res = some b → 0 ≤ b.best_error) ∧
      ((∃ n ∈ numbers, n ≠ 0) → res ≠ none) := by
  have hfold := foldP_char target (tripleProduct numbers)
  refine ⟨(tripleProduct numbers).foldl (stepP target) none,
    by rw [_find_best_combination, searchLoop_ok target ht], ?_, ?_, ?_⟩
  · intro b hb n1 h1 n2 h2 n3 h3 hn3
    rcases hfold with ⟨hnone, _⟩ | ⟨i, hi, heq, _, hle, _⟩
    · rw [hnone] at hb; cases hb
    · rw [heq] at hb
      injection hb with hb2
      subst hb2
      have hmem : ((n1, n2, n3) : ℚ × ℚ × ℚ) ∈ tripleProduct numbers :=
        mem_tripleProduct.mpr ⟨h1, h2, h3⟩
      obtain ⟨j, hj, hjeq⟩ := List.mem_iff_getElem.mp hmem
      have hscore : score target ((n1, n2, n3) : ℚ × ℚ × ℚ) =
          |n1 * n2 / n3 - target| / target * 100 := rfl
      rw [canon_best_error, ← hscore, ← hjeq]
      exact hle j hj (by rw [hjeq]; exact hn3)
  · intro htpos b hb
    rcases hfold with ⟨hnone, _⟩ | ⟨i, hi, heq, _, _, _⟩
    · rw [hnone] at hb; cases hb
    · rw [heq] at hb
      injection hb with hb2
      subst hb2
      rw [canon_best_error, score]
      have h1 : (0 : ℚ) ≤ |(tripleProduct numbers)[i].1 *
          (tripleProduct numbers)[i].2.1 / (tripleProduct numbers)[i].2.2 - target| /
          target := div_nonneg (abs_nonneg _) (le_of_lt htpos)
      positivity
  · intro hnz
    obtain ⟨n, hn, hn0⟩ := hnz
    rcases hfold with ⟨hnone, hall⟩ | ⟨i, hi, heq, _, _, _⟩
    · exfalso
      exact hn0 (hall (n, n, n) (mem_tripleProduct.mpr ⟨hn, hn, hn⟩))
    · rw [heq]
      simp

/-- C1 witness: the amended claim instantiated on pool [1, 2] with
target 1. -/
theorem C1_minimality_witness :
    ∃ res, _find_best_combination [1, 2] 1 = .ok res ∧
      (∀ b, res = some b → ∀ n1 ∈ [(1:ℚ), 2], ∀ n2 ∈ [(1:ℚ), 2],
        ∀ n3 ∈ [(1:ℚ), 2],
        n3 ≠ 0 → b.best_error ≤ |n1 * n2 / n3 - 1| / 1 * 100) ∧
      ((0:ℚ) < 1 → ∀ b, res = some b → 0 ≤ b.best_error) ∧
      ((∃ n ∈ [(1:ℚ), 2], n ≠ 0) → res ≠ none) :=
  C1_minimality [1, 2] 1 (by simp) (by norm_num)

/-- C2: calling the search on the all-zero pool [0, 0, 0] returns the
placeholder value ok none, the model of the source returning the tuple
(None, inf, None); no explicit NoValidCombination error is signaled, which
is the latent bug the spec flags. -/
theorem C2_all_zero_pool_returns_placeholder :
    _find_best_combination [0, 0, 0] 1 = .ok none := by
  norm_num [_find_best_combination, tripleProduct, searchLoop, loopStep, pyDiv]

/-- C3: a triple whose third component is zero is skipped entirely: the
loop body returns the accumulator unchanged for it (raising nothing and
scoring nothing, even when target == 0), and any best record the search
returns carries a combination whose third component is nonzero. -/
theorem C3_zero_denominator_skipped :
    (∀ (target : ℚ) (acc : Option Best) (n1 n2 : ℚ),
      loopStep target acc (n1, n2, 0) = .ok acc) ∧
    (∀ (numbers : List ℚ) (target : ℚ) (b : Best),
      _find_best_combination numbers target = .ok (some b) →
        b.best_combination.2.2 ≠ 0) := by
  constructor
  · intro target acc n1 n2
    simp [loopStep]
  · intro numbers target b hres
    by_cases ht : target = 0
    · subst ht
      rw [_find_best_combination] at hres
      rcases searchLoop_zero_target (tripleProduct numbers) with h | h <;>
        rw [h] at hres <;> cases hres
    · rw [_find_best_combination, searchLoop_ok target ht] at hres
      rcases foldP_char target (tripleProduct numbers) with ⟨hnone, _⟩ |
        ⟨i, hi, heq, hvalid, _, _⟩
      · rw [hnone] at hres; cases hres
      · rw [heq] at hres
        injection hres with hres2
        injection hres2 with hres3
        rw [← hres3, canon_best_combination]
        exact hvalid

/-- C3 witness: on pool [2, 0] with target 1 the search returns the record
for (2, 2, 2), whose third component is nonzero. -/
theorem C3_witness :
    (Best.mk 2 100 (2, 2, 2)).best_combination.2.2 ≠ 0 :=
  C3_zero_denominator_skipped.2 [2, 0] 1 ⟨2, 100, (2, 2, 2)⟩ (by
    norm_num [_find_best_combination, tripleProduct, searchLoop, loopStep, pyDiv,
      abs_of_nonneg, abs_of_nonpos])

/-- C4: ties are broken in favor of the first triple in product order.  The
loop never overwrites the running best on an equal error (the comparison is
strict), and whenever the search returns a best record, that record is the
canonical record of a product-order position whose score is a lower bound
for every valid triple and strictly below the score of every valid triple
at an earlier position. -/
theorem C4_first_seen_tie_break (numbers : List ℚ) (target : ℚ)
    (ht : target ≠ 0) (b : Best)
    (hres : _find_best_combination numbers target = .ok (some b)) :
    (∀ (b2 : Best) (u : ℚ × ℚ × ℚ), u.2.2 ≠ 0 → score target u = b2.best_error →
      loopStep target (some b2) u = .ok (some b2)) ∧
    ∃ i, ∃ hi : i < (tripleProduct numbers).length,
      b = canon target (tripleProduct numbers)[i] ∧
      b.best_combination = (tripleProduct numbers)[i] ∧
      (∀ j, ∀ hj : j < (tripleProduct numbers).length,
        ((tripleProduct numbers)[j]).2.2 ≠ 0 →
          b.best_error ≤ score target (tripleProduct numbers)[j]) ∧
      (∀ j, ∀ hj : j < (tripleProduct numbers).length, j < i →
        ((tripleProduct numbers)[j]).2.2 ≠ 0 →
          b.best_error < score target (tripleProduct numbers)[j]) := by
  constructor
  · intro b2 u hu3 hueq
    rw [loopStep_ok target ht]
    have : ¬ score target u < b2.best_error := by rw [hueq]; exact lt_irrefl _
    simp [stepP, hu3, this]
  · rw [_find_best_combination, searchLoop_ok target ht] at hres
    rcases foldP_char target (tripleProduct numbers) with ⟨hnone, _⟩ |
      ⟨i, hi, heq, hvalid, hle, hstrict⟩
    · rw [hnone] at hres; cases hres
    · rw [heq] at hres
      injection hres with hres2
      injection hres2 with hres3
      subst hres3
      refine ⟨i, hi, rfl, canon_best_combination _ _, ?_, ?_⟩
      · intro j hj hvj
        rw [canon_best_error]
        exact hle j hj hvj
      · intro j hj hji hvj
        rw [canon_best_error]
        exact hstrict j hj hji hvj

/-- C4 witness: pool [1, 2] with target 2 has the tie
score (1,2,1) = score (2,1,1) = score (2,2,2) = 0, and the search returns
the record of the first of them in product order, (1, 2, 1). -/
theorem C4_witness :
    (∀ (b2 : Best) (u : ℚ × ℚ × ℚ), u.2.2 ≠ 0 → score 2 u = b2.best_error →
      loopStep 2 (some b2) u = .ok (some b2)) ∧
    ∃ i, ∃ hi : i < (tripleProduct [1, 2]).length,
      Best.mk 2 0 (1, 2, 1) = canon 2 (tripleProduct [1, 2])[i] ∧
      (Best.mk 2 0 (1, 2, 1)).best_combination = (tripleProduct [1, 2])[i] ∧
      (∀ j, ∀ hj : j < (tripleProduct [1, 2]).length,
        ((tripleProduct [1, 2])[j]).2.2 ≠ 0 →
          (Best.mk 2 0 (1, 2, 1)).best_error ≤ score 2 (tripleProduct [1, 2])[j]) ∧
      (∀ j, ∀ hj : j < (tripleProduct [1, 2]).length, j < i →
        ((tripleProduct [1, 2])[j]).2.2 ≠ 0 →
          (Best.mk 2 0 (1, 2, 1)).best_error < score 2 (tripleProduct [1, 2])[j]) :=
  C4_first_seen_tie_break [1, 2] 2 (by norm_num) ⟨2, 0, (1, 2, 1)⟩ (by
    norm_num [_find_best_combination, tripleProduct, searchLoop, loopStep, pyDiv,
      abs_of_nonneg, abs_of_nonpos])

/-- C5: the code performs no validation of target.  With target == 0 and a
scorable triple present (pool [1]) the percentage-error division raises an
implicit ZeroDivisionError rather than signaling an explicit
DegenerateTarget error kind, and with target == 0 on the all-zero pool [0]
the call silently returns the placeholder instead of signaling anything. -/
theorem C5_zero_target_not_validated :
    _find_best_combination [1] 0 = .error .zeroDivisionError ∧
    _find_best_combination [0] 0 = .ok none := by
  constructor <;>
    norm_num [_find_best_combination, tripleProduct, searchLoop, loopStep, pyDiv]

/-- Model of the Python built-in sorted() (also of numpy's internal sort):
the sorted permutation of the list under the standard order.  insertionSort
is used as the sorting algorithm; on a linear order the sorted permutation
is unique, so this is extensionally what sorted() returns. -/
def sortedList (xs : List ℚ) : List ℚ := xs.insertionSort (· ≤ ·)

namespace statistics

/-- statistics.mean: sum divided by count, raising StatisticsError on an
empty list. -/
def mean (xs : List ℚ) : Except PyExn ℚ :=
  if xs.length = 0 then .error .statisticsError
  else .ok (xs.sum / xs.length)

/-- Value of statistics.median on a non-empty list: the middle element of
the sorted data for odd length, the average of the two middle elements for
even length. -/
def medianVal (xs : List ℚ) : ℚ :=
  let s := sortedList xs
  let n := s.length
  if n % 2 = 1 then s.getD (n / 2) 0
  else (s.getD (n / 2 - 1) 0 + s.getD (n / 2) 0) / 2

/-- statistics.median, raising StatisticsError on an empty list. -/
def median (xs : List ℚ) : Except PyExn ℚ :=
  if xs.length = 0 then .error .statisticsError else .ok (medianVal xs)

/-- statistics._ss with its correction term: the sum of squared deviations
from c minus (sum of deviations)^2 / n, where the caller passes the
arithmetic mean for c. -/
def _ss (xs : List ℚ) (c : ℚ) : ℚ :=
  (xs.map fun x => (x - c) ^ 2).sum -
    ((xs.map fun x => x - c).sum) ^ 2 / xs.length

/-- Value of statistics.variance on lists of length at least 2: _ss at the
mean, divided by n - 1 (sample variance). -/
def varianceVal (xs : List ℚ) : ℚ :=
  _ss xs (xs.sum / xs.length) / ((xs.length : ℚ) - 1)

/-- statistics.variance: raises StatisticsError when fewer than two data
points are supplied. -/
def variance (xs : List ℚ) : Except PyExn ℚ :=
  if xs.length < 2 then .error .statisticsError else .ok (varianceVal xs)

/-- statistics.stdev: square root of the sample variance, propagating the
StatisticsError raised for fewer than two data points. -/
noncomputable def stdev (xs : List ℚ) : Except PyExn ℝ :=
  match variance xs with
  | .error exn => .error exn
  | .ok v => .ok (Real.sqrt v)

end statistics

/-- Value of the Python builtin min on a non-empty list: left fold of
binary min over the remaining elements (0 is a junk value for []). -/
def minVal : List ℚ → ℚ
  | [] => 0
  | x :: rest => rest.foldl min x

/-- Value of the Python builtin max on a non-empty list. -/
def maxVal : List ℚ → ℚ
  | [] => 0
  | x :: rest => rest.foldl max x

/-- Python builtin min on a list, raising ValueError when it is empty. -/
def listMin (xs : List ℚ) : Except PyExn ℚ :=
  if xs.length = 0 then .error .valueError else .ok (minVal xs)

/-- Python builtin max on a list, raising ValueError when it is empty. -/
def listMax (xs : List ℚ) : Except PyExn ℚ :=
  if xs.length = 0 then .error .valueError else .ok (maxVal xs)

namespace np

/-- Value of np.percentile(xs, q) with the default linear interpolation:
with h = q/100 * (n-1) the virtual index into the sorted data, interpolate
between the sorted elements at positions floor(h) and ceil(h). -/
def pctVal (xs : List ℚ) (q : ℚ) : ℚ :=
  let s := sortedList xs
  let h := q / 100 * ((xs.length : ℚ) - 1)
  let lo := (⌊h⌋).toNat
  let hi := (⌈h⌉).toNat
  s.getD lo 0 + (h - (⌊h⌋ : ℚ)) * (s.getD hi 0 - s.getD lo 0)

/-- np.percentile, raising on an empty input. -/
def percentile (xs : List ℚ) (q : ℚ) : Except PyExn ℚ :=
  if xs.length = 0 then .error .valueError else .ok (pctVal xs q)

end np

/-- The metrics dictionary built by _calculate_statistical_metrics. -/
structure Metrics where
  mean : ℚ
  median : ℚ
  std_dev : ℝ
  variance : ℚ
  min : ℚ
  max : ℚ
  range : ℚ
  q1 : ℚ
  q3 : ℚ
  iqr : ℚ

/-- DatasetAnalyzer._calculate_statistical_metrics (dataset_analyzer.py
lines 325-339): the dictionary of mean, median, std_dev, variance, min,
max, range = max - min, q1 = 25th percentile, q3 = 75th percentile and
iqr = q3 - q1, with the entries computed in the source's evaluation order
so that the first raising entry determines the exception. -/
noncomputable def _calculate_statistical_metrics (errors : List ℚ) :
    Except PyExn Metrics :=
  match statistics.mean errors with
  | .error exn => .error exn
  | .ok m =>
    match statistics.median errors with
    | .error exn => .error exn
    | .ok med =>
      match statistics.stdev errors with
      | .error exn => .error exn
      | .ok sd =>
        match statistics.variance errors with
        | .error exn => .error exn
        | .ok v =>
          match listMin errors with
          | .error exn => .error exn
          | .ok mn =>
            match listMax errors with
            | .error exn => .error exn
            | .ok mx =>
              match np.percentile errors 25 with
              | .error exn => .error exn
              | .ok q1 =>
                match np.percentile errors 75 with
                | .error exn => .error exn
                | .ok q3 => .ok ⟨m, med, sd, v, mn, mx, mx - mn, q1, q3, q3 - q1⟩

/-- The metrics record produced for a list of length at least 2. -/
noncomputable def metricsVal (xs : List ℚ) : Metrics :=
  ⟨xs.sum / xs.length, statistics.medianVal xs,
    Real.sqrt (statistics.varianceVal xs), statistics.varianceVal xs,
    minVal xs, maxVal xs, maxVal xs - minVal xs,
    np.pctVal xs 25, np.pctVal xs 75, np.pctVal xs 75 - np.pctVal xs 25⟩

theorem calc_ok (xs : List ℚ) (h2 : 2 ≤ xs.length) :
    _calculate_statistical_metrics xs = .ok (metricsVal xs) := by
  have hne : ¬ xs.length = 0 := by omega
  have hlt : ¬ xs.length < 2 := by omega
  simp [_calculate_statistical_metrics, statistics.mean, statistics.median,
    statistics.stdev, statistics.variance, listMin, listMax, np.percentile,
    hne, hlt, metricsVal]

/-- C6: supplying a single error value to _calculate_statistical_metrics
raises the statistics-module error for insufficient samples (sample
standard deviation needs at least two data points) instead of producing a
metrics record. -/
theorem C6_single_sample_raises (e : ℚ) :
    _calculate_statistical_metrics [e] = .error .statisticsError := by
  simp [_calculate_statistical_metrics, statistics.mean, statistics.median,
    statistics.stdev, statistics.variance]

/-- C6 witness: the single-sample error at the concrete input [3.7]. -/
theorem C6_witness :
    _calculate_statistical_metrics [(3.7 : ℚ)] = .error .statisticsError :=
  C6_single_sample_raises 3.7

theorem sum_map_sub (xs : List ℚ) (c : ℚ) :
    (xs.map fun x => x - c).sum = xs.sum - xs.length * c := by
  induction xs with
  | nil => simp
  | cons a tl ih => simp [ih]; ring

/-- The deviations from the exact mean sum to zero, so the correction term
of statistics._ss vanishes in exact arithmetic. -/
theorem sum_dev_zero (xs : List ℚ) (h : xs.length ≠ 0) :
    (xs.map fun x => x - xs.sum / xs.length).sum = 0 := by
  have hq : (xs.length : ℚ) ≠ 0 := Nat.cast_ne_zero.mpr h
  rw [sum_map_sub]
  field_simp

/-- On at least two data points, the variance the code computes equals the
textbook sample variance: the sum of squared deviations from the mean over
n - 1. -/
theorem varianceVal_eq_textbook (xs : List ℚ) (h2 : 2 ≤ xs.length) :
    statistics.varianceVal xs =
      (xs.map fun x => (x - xs.sum / xs.length) ^ 2).sum /
        ((xs.length : ℚ) - 1) := by
  rw [statistics.varianceVal, statistics._ss, sum_dev_zero xs (by omega)]
  norm_num

theorem varianceVal_nonneg (xs : List ℚ) (h2 : 2 ≤ xs.length) :
    0 ≤ statistics.varianceVal xs := by
  rw [varianceVal_eq_textbook xs h2]
  apply div_nonneg
  · apply List.sum_nonneg
    intro a ha
    obtain ⟨x, _, rfl⟩ := List.mem_map.mp ha
    exact sq_nonneg _
  · have hcast : (2 : ℚ) ≤ (xs.length : ℚ) := by exact_mod_cast h2
    linarith

/-- C9: on [1.2, 2.3, 0.8, 1.5] the metrics are mean 1.45, min 0.8,
max 2.3 and range 1.5; and on every list of at least two values the
returned variance is the sample formula with denominator n - 1, the
standard deviation is its square root (so its square is the variance),
range is max minus min and iqr is q3 minus q1. -/
theorem C9_sample_formulas :
    (∃ m, _calculate_statistical_metrics [1.2, 2.3, 0.8, 1.5] = .ok m ∧
      m.mean = 1.45 ∧ m.min = 0.8 ∧ m.max = 2.3 ∧ m.range = 1.5) ∧
    (∀ xs : List ℚ, 2 ≤ xs.length →
      ∃ m, _calculate_statistical_metrics xs = .ok m ∧
        m.variance =
          (xs.map fun x => (x - xs.sum / xs.length) ^ 2).sum /
            ((xs.length : ℚ) - 1) ∧
        m.std_dev = Real.sqrt m.variance ∧
        m.std_dev ^ 2 = (m.variance : ℝ) ∧
        m.range = m.max - m.min ∧
        m.iqr = m.q3 - m.q1) := by
  constructor
  · refine ⟨metricsVal [1.2, 2.3, 0.8, 1.5], calc_ok _ (by simp), ?_, ?_, ?_, ?_⟩
    · norm_num [metricsVal]
    · norm_num [metricsVal, minVal, min_def]
    · norm_num [metricsVal, maxVal, max_def]
    · norm_num [metricsVal, minVal, maxVal, min_def, max_def]
  · intro xs h2
    refine ⟨metricsVal xs, calc_ok xs h2, varianceVal_eq_textbook xs h2, rfl,
      ?_, rfl, rfl⟩
    exact Real.sq_sqrt (by exact_mod_cast varianceVal_nonneg xs h2)

/-- C9 witness: the universal part instantiated on the two-element list
[1, 2]. -/
theorem C9_witness :
    ∃ m, _calculate_statistical_metrics [(1:ℚ), 2] = .ok m ∧
      m.variance =
        (([(1:ℚ), 2].map fun x =>
          (x - [(1:ℚ), 2].sum / ([(1:ℚ), 2].length : ℚ)) ^ 2).sum) /
          (([(1:ℚ), 2].length : ℚ) - 1) ∧
      m.std_dev = Real.sqrt m.variance ∧
      m.std_dev ^ 2 = (m.variance : ℝ) ∧
      m.range = m.max - m.min ∧
      m.iqr = m.q3 - m.q1 :=
  C9_sample_formulas.2 [1, 2] (by simp)

/-- Sorting is permutation-invariant: permutation-equal lists have the same
sorted form (the sorted permutation is unique on a linear order). -/
theorem sortedList_eq_of_perm {xs ys : List ℚ} (h : xs.Perm ys) :
    sortedList xs = sortedList ys :=
  List.eq_of_perm_of_sorted
    ((List.perm_insertionSort _ xs).trans (h.trans (List.perm_insertionSort _ ys).symm))
    (List.sorted_insertionSort _ xs) (List.sorted_insertionSort _ ys)

/-- The left fold of binary min is a member of the list and a lower bound
for it. -/
theorem foldl_min_spec (x : ℚ) (rest : List ℚ) :
    rest.foldl min x ∈ x :: rest ∧ ∀ y ∈ x :: rest, rest.foldl min x ≤ y := by
  induction rest generalizing x with
  | nil => simp
  | cons a tl ih =>
    rw [List.foldl_cons]
    obtain ⟨hmem, hle⟩ := ih (min x a)
    constructor
    · rcases List.mem_cons.mp hmem with h | h
      · rcases min_choice x a with hc | hc
        · rw [h, hc]; exact List.mem_cons_self _ _
        · rw [h, hc]; exact List.mem_cons_of_mem _ (List.mem_cons_self _ _)
      · exact List.mem_cons_of_mem _ (List.mem_cons_of_mem _ h)
    · intro y hy
      rcases List.mem_cons.mp hy with rfl | hy2
      · exact le_trans (hle _ (List.mem_cons_self _ _)) (min_le_left _ _)
      · rcases List.mem_cons.mp hy2 with rfl | hy3
        · exact le_trans (hle _ (List.mem_cons_self _ _)) (min_le_right _ _)
        · exact hle _ (List.mem_cons_of_mem _ hy3)

/-- The left fold of binary max is a member of the list and an upper bound
for it. -/
theorem foldl_max_spec (x : ℚ) (rest : List ℚ) :
    rest.foldl max x ∈ x :: rest ∧ ∀ y ∈ x :: rest, y ≤ rest.foldl max x := by
  induction rest generalizing x with
  | nil => simp
  | cons a tl ih =>
    rw [List.foldl_cons]
    obtain ⟨hmem, hle⟩ := ih (max x a)
    constructor
    · rcases List.mem_cons.mp hmem with h | h
      · rcases max_choice x a with hc | hc
        · rw [h, hc]; exact List.mem_cons_self _ _
        · rw [h, hc]; exact List.mem_cons_of_mem _ (List.mem_cons_self _ _)
      · exact List.mem_cons_of_mem _ (List.mem_cons_of_mem _ h)
    · intro y hy
      rcases List.mem_cons.mp hy with rfl | hy2
      · exact le_trans (le_max_left _ _) (hle _ (List.mem_cons_self _ _))
      · rcases List.mem_cons.mp hy2 with rfl | hy3
        · exact le_trans (le_max_right _ _) (hle _ (List.mem_cons_self _ _))
        · exact hle _ (List.mem_cons_of_mem _ hy3)

theorem minVal_perm {xs ys : List ℚ} (h : xs.Perm ys) : minVal xs = minVal ys := by
  cases xs with
  | nil =>
    cases ys with
    | nil => rfl
    | cons b tl2 => exact absurd h.symm (by simp)
  | cons a tl =>
    cases ys with
    | nil => exact absurd h (by simp)
    | cons b tl2 =>
      obtain ⟨hmem1, hle1⟩ := foldl_min_spec a tl
      obtain ⟨hmem2, hle2⟩ := foldl_min_spec b tl2
      exact le_antisymm (hle1 _ (h.mem_iff.mpr hmem2)) (hle2 _ (h.mem_iff.mp hmem1))

theorem maxVal_perm {xs ys : List ℚ} (h : xs.Perm ys) : maxVal xs = maxVal ys := by
  cases xs with
  | nil =>
    cases ys with
    | nil => rfl
    | cons b tl2 => exact absurd h.symm (by simp)
  | cons a tl =>
    cases ys with
    | nil => exact absurd h (by simp)
    | cons b tl2 =>
      obtain ⟨hmem1, hle1⟩ := foldl_max_spec a tl
      obtain ⟨hmem2, hle2⟩ := foldl_max_spec b tl2
      exact le_antisymm (hle2 _ (h.mem_iff.mp hmem1)) (hle1 _ (h.mem_iff.mpr hmem2))

/-- C10: on at least two values, every statistic the metrics function
computes is invariant under permutation of the input list; the two runs
return identical metrics records. -/
theorem C10_permutation_invariant (xs ys : List ℚ) (hp : xs.Perm ys)
    (h2 : 2 ≤ xs.length) :
    _calculate_statistical_metrics xs = _calculate_statistical_metrics ys := by
  have hlen : xs.length = ys.length := hp.length_eq
  have hsum : xs.sum = ys.sum := hp.sum_eq
  have hsort : sortedList xs = sortedList ys := sortedList_eq_of_perm hp
  have h2y : 2 ≤ ys.length := hlen ▸ h2
  rw [calc_ok xs h2, calc_ok ys h2y]
  have hmean : xs.sum / (xs.length : ℚ) = ys.sum / (ys.length : ℚ) := by
    rw [hsum, hlen]
  have hmed : statistics.medianVal xs = statistics.medianVal ys := by
    unfold statistics.medianVal
    rw [hsort]
  have hvar : statistics.varianceVal xs = statistics.varianceVal ys := by
    unfold statistics.varianceVal statistics._ss
    rw [← hsum, ← hlen,
      (hp.map fun x => (x - xs.sum / (xs.length : ℚ)) ^ 2).sum_eq,
      (hp.map fun x => x - xs.sum / (xs.length : ℚ)).sum_eq]
  have hmin : minVal xs = minVal ys := minVal_perm hp
  have hmax : maxVal xs = maxVal ys := maxVal_perm hp
  have hq1 : np.pctVal xs 25 = np.pctVal ys 25 := by
    unfold np.pctVal
    rw [hsort, hlen]
  have hq3 : np.pctVal xs 75 = np.pctVal ys 75 := by
    unfold np.pctVal
    rw [hsort, hlen]
  simp only [metricsVal]
  rw [hmean, hmed, hvar, hmin, hmax, hq1, hq3]

/-- C10 witness: the permutation [1, 2] ~ [2, 1]. -/
theorem C10_witness :
    _calculate_statistical_metrics [(1:ℚ), 2] =
      _calculate_statistical_metrics [(2:ℚ), 1] :=
  C10_permutation_invariant [1, 2] [2, 1] (List.Perm.swap 2 1 []) (by simp)

/-- The reliability ratings assigned in the conclusion step of analyze. -/
inductive ReliabilityRating
  | Exceptional
  | Superior
  | Satisfactory
  | Limited
deriving DecidableEq

namespace ErrorThreshold

/-- ErrorThreshold.EXCEPTIONAL (constants.py line 20). -/
def EXCEPTIONAL : ℚ := 1

/-- ErrorThreshold.SUPERIOR (constants.py line 21). -/
def SUPERIOR : ℚ := 5

/-- ErrorThreshold.SATISFACTORY (constants.py line 22). -/
def SATISFACTORY : ℚ := 10

end ErrorThreshold

/-- The classification chain at the end of analyze (dataset_analyzer.py
lines 517-528): strict < comparisons of the maximum error against the
three ascending thresholds, with Limited as the fallthrough. -/
def classify (max_error : ℚ) : ReliabilityRating :=
  if max_error < ErrorThreshold.EXCEPTIONAL then .Exceptional
  else if max_error < ErrorThreshold.SUPERIOR then .Superior
  else if max_error < ErrorThreshold.SATISFACTORY then .Satisfactory
  else .Limited

/-- C7: the classifier is total with exactly the strict-threshold bands:
Exceptional below 1, Superior on [1, 5), Satisfactory on [5, 10), Limited
from 10 up; in particular the boundary values 1, 5 and 10 fall in the
higher band. -/
theorem C7_classify_bands (x : ℚ) :
    (classify x = .Exceptional ↔ x < 1) ∧
    (classify x = .Superior ↔ 1 ≤ x ∧ x < 5) ∧
    (classify x = .Satisfactory ↔ 5 ≤ x ∧ x < 10) ∧
    (classify x = .Limited ↔ 10 ≤ x) ∧
    classify (1 : ℚ) = .Superior ∧ classify (5 : ℚ) = .Satisfactory ∧
    classify (10 : ℚ) = .Limited := by
  refine ⟨?_, ?_, ?_, ?_, by norm_num [classify, ErrorThreshold.EXCEPTIONAL,
      ErrorThreshold.SUPERIOR, ErrorThreshold.SATISFACTORY],
    by norm_num [classify, ErrorThreshold.EXCEPTIONAL,
      ErrorThreshold.SUPERIOR, ErrorThreshold.SATISFACTORY],
    by norm_num [classify, ErrorThreshold.EXCEPTIONAL,
      ErrorThreshold.SUPERIOR, ErrorThreshold.SATISFACTORY]⟩ <;>
  · unfold classify ErrorThreshold.EXCEPTIONAL ErrorThreshold.SUPERIOR
      ErrorThreshold.SATISFACTORY
    split_ifs with h1 h2 h3 <;> simp_all <;>
      first
        | linarith
        | (constructor <;> linarith)
        | (intro hx; linarith)

/-- C7 witness: the band iff applied at the concrete error 7. -/
theorem C7_witness : classify 7 = .Satisfactory :=
  (C7_classify_bands 7).2.2.1.mpr (by norm_num)

/-- The count sum(1 for e in all_errors if e < t) from the precision
analysis step of analyze: a fold that adds one for each error strictly
below the threshold. -/
def count_below (errors : List ℚ) (t : ℚ) : ℕ :=
  errors.foldl (fun acc e => if e < t then acc + 1 else acc) 0

/-- The confidence_intervals list in analyze (dataset_analyzer.py lines
478-491): each of the three thresholds paired with the count of errors
strictly below it. -/
def confidence_intervals (errors : List ℚ) : List (ℚ × ℕ) :=
  [(ErrorThreshold.EXCEPTIONAL, count_below errors ErrorThreshold.EXCEPTIONAL),
   (ErrorThreshold.SUPERIOR, count_below errors ErrorThreshold.SUPERIOR),
   (ErrorThreshold.SATISFACTORY, count_below errors ErrorThreshold.SATISFACTORY)]

/-- The per-threshold fraction of datasets reported by the tolerance
table: count divided by the number of errors. -/
def threshold_fraction (errors : List ℚ) (t : ℚ) : ℚ :=
  (count_below errors t : ℚ) / (errors.length : ℚ)

theorem count_below_go (errors : List ℚ) (t : ℚ) (n : ℕ) :
    errors.foldl (fun acc e => if e < t then acc + 1 else acc) n =
      n + (errors.filter fun e => decide (e < t)).length := by
  induction errors generalizing n with
  | nil => simp
  | cons a tl ih =>
    rw [List.foldl_cons]
    by_cases h : a < t
    · rw [if_pos h, ih, List.filter_cons]
      simp [h]
      omega
    · rw [if_neg h, ih, List.filter_cons]
      simp [h]

/-- C8: the fold counts exactly the errors strictly below the threshold
(it equals the length of the filtered list), and on [0.5, 2, 7, 15] the
three thresholds give counts 1, 2 and 3, hence fractions 1/4, 2/4
and 3/4. -/
theorem C8_threshold_counts :
    (∀ (errors : List ℚ) (t : ℚ),
      count_below errors t = (errors.filter fun e => decide (e < t)).length) ∧
    confidence_intervals [0.5, 2, 7, 15] = [(1, 1), (5, 2), (10, 3)] ∧
    threshold_fraction [0.5, 2, 7, 15] 1 = 1 / 4 ∧
    threshold_fraction [0.5, 2, 7, 15] 5 = 2 / 4 ∧
    threshold_fraction [0.5, 2, 7, 15] 10 = 3 / 4 := by
  refine ⟨fun errors t => by rw [count_below, count_below_go]; simp, ?_, ?_, ?_, ?_⟩ <;>
    norm_num [confidence_intervals, threshold_fraction, count_below,
      ErrorThreshold.EXCEPTIONAL, ErrorThreshold.SUPERIOR,
      ErrorThreshold.SATISFACTORY]

/-- C8 witness: the counting law applied at the concrete error list and
threshold 1. -/
theorem C8_witness :
    count_below [0.5, 2, 7, 15] 1 =
      (List.filter (fun e => decide (e < 1)) [(0.5 : ℚ), 2, 7, 15]).length :=
  C8_threshold_counts.1 [0.5, 2, 7, 15] 1
